import Mathlib

/-
  Verification of the atomic-chess engine in `ChessVar.py`.

  The board of the source is a dictionary keyed by rank 1..8 whose values are
  lists indexed by file 0..7; a square holds either the string "_" or a piece
  object carrying a color ("w"/"b") and a letter ("P","K","N","R","B","Q").
  We embed the board as a function `Int → Int → Option ChessPiece`; all access
  goes through `Board.read` / `Board.writeF`, which return `none` exactly where
  the Python dictionary/list indexing would raise (KeyError / IndexError).
  Fallible computations are `Option`-valued, with `none` modelling an uncaught
  Python exception.

  Every `get_movement` method of the source begins by re-parsing the two
  algebraic points with the same prelude as `ChessBoard.check_move`
  (`int(point[1])` and `columns.index(point[0])`).  That shared prelude is
  modelled once (`rowIndex` / `colIndex`) and the parsed indices are passed to
  the movement rules directly; `check_move`, `move_piece` and `make_move` do
  the full parse.
-/

set_option maxHeartbeats 1000000

namespace AtomicChess

/-- Piece color: the `"w"` / `"b"` strings of the source. -/
inductive Color where
  | w
  | b
deriving DecidableEq

/-- The turn change performed by `move_decorator`. -/
def Color.flip : Color → Color
  | Color.w => Color.b
  | Color.b => Color.w

/-- Piece letter: `"P"`, `"K"`, `"N"`, `"R"`, `"B"`, `"Q"`. -/
inductive PType where
  | P
  | K
  | N
  | R
  | B
  | Q
deriving DecidableEq

/-- A piece object: color plus letter (class `Piece` of the source). -/
structure ChessPiece where
  color : Color
  letter : PType
deriving DecidableEq

/-- A board square: `none` is the `"_"` marker. -/
abbrev Square := Option ChessPiece

/-- The board: rank key 1..8, file index 0..7 (a dict of lists in the source).
Values of the function outside that range are never observed: all access goes
through `Board.read` / `Board.writeF`. -/
abbrev Board := Int → Int → Square

/-- `board[row][col]`: `none` models the KeyError / IndexError raised on an
out-of-range rank key or file index. -/
def Board.read (b : Board) (row col : Int) : Option Square :=
  if 1 ≤ row ∧ row ≤ 8 ∧ 0 ≤ col ∧ col ≤ 7 then some (b row col) else none

/-- Pointwise update of the board function (used only at indices already known
to be in range). -/
def Board.write (b : Board) (row col : Int) (s : Square) : Board :=
  fun r c => if r = row ∧ c = col then s else b r c

/-- `board[row][col] = s`: fails (KeyError / IndexError) out of range. -/
def Board.writeF (b : Board) (row col : Int) (s : Square) : Option Board :=
  if 1 ≤ row ∧ row ≤ 8 ∧ 0 ≤ col ∧ col ≤ 7 then some (b.write row col s) else none

/-- `columns.index(ch)` for `columns = ["a",...,"h"]`; `none` models the
ValueError raised on a letter outside a..h. -/
def colIndex (ch : Char) : Option Int :=
  if ch = 'a' then some 0
  else if ch = 'b' then some 1
  else if ch = 'c' then some 2
  else if ch = 'd' then some 3
  else if ch = 'e' then some 4
  else if ch = 'f' then some 5
  else if ch = 'g' then some 6
  else if ch = 'h' then some 7
  else none

/-- `int(ch)` on the rank character of a point: the numeric value of a digit;
`none` models the ValueError raised on a non-digit. -/
def rowIndex (ch : Char) : Option Int :=
  if ch.isDigit then some ((ch.toNat : Int) - 48) else none

/-- An algebraic point: file letter and rank character, e.g. `('a', '2')`. -/
abbrev Point := Char × Char

/-- Python's `abs` on integers. -/
def iabs (x : Int) : Int := if x < 0 then -x else x

/-- `range(lo, hi)` over integers. -/
def intRange (lo hi : Int) : List Int :=
  (List.range (hi - lo).toNat).map (fun i => lo + (i : Int))

/-- The shared loop shape of the Rook/Bishop/Queen rules: walk a list of path
squares and answer `false` at the first nonempty one. -/
def pathClear (board : Board) : List (Int × Int) → Option Bool
  | [] => some true
  | rc :: rest =>
    match board.read rc.1 rc.2 with
    | none => none
    | some s =>
      match s with
      | some _ => some false
      | none => pathClear board rest

/-- `Pawn.get_movement` (after the shared point-parsing prelude). -/
def Pawn.get_movement (rowA colA rowB colB : Int) (color : Color) (board : Board) :
    Option Bool :=
  match color with
  | Color.w =>
    if rowA = 2 ∧ colA = colB then
      (if rowB - rowA = 1 ∨ rowB - rowA = 2 then some true else some false)
    else
      match board.read rowB colB with
      | none => none
      | some spaceB =>
        if spaceB ≠ none ∧ rowB - rowA = 1 then
          (if iabs (colA - colB) = 1 then some true else some false)
        else if spaceB = none ∧ colA = colB ∧ rowB - rowA = 1 then some true
        else some false
  | Color.b =>
    if rowA = 7 ∧ colA = colB then
      (if rowA - rowB = 1 ∨ rowA - rowB = 2 then some true else some false)
    else
      match board.read rowB colB with
      | none => none
      | some spaceB =>
        if spaceB ≠ none ∧ rowA - rowB = 1 then
          (if iabs (colB - colA) = 1 then some true else some false)
        else if spaceB = none ∧ colA = colB ∧ rowA - rowB = 1 then some true
        else some false

/-- `King.get_movement` (after the shared point-parsing prelude). -/
def King.get_movement (rowA colA rowB colB : Int) (board : Board) : Option Bool :=
  match board.read rowB colB with
  | none => none
  | some spaceB =>
    match spaceB with
    | some _ => some false
    | none =>
      if rowA = rowB ∧ iabs (colA - colB) = 1 then some true
      else if colA = colB ∧ iabs (rowA - rowB) = 1 then some true
      else if iabs (colA - colB) = 1 ∧ iabs (rowA - rowB) = 1 then some true
      else some false

/-- `Knight.get_movement` (after the shared point-parsing prelude). -/
def Knight.get_movement (rowA colA rowB colB : Int) (_board : Board) : Option Bool :=
  if iabs (rowA - rowB) = 2 ∧ iabs (colA - colB) = 1 then some true
  else if iabs (colA - colB) = 2 ∧ iabs (rowA - rowB) = 1 then some true
  else some false

/-- `Rook.get_movement` (after the shared point-parsing prelude). -/
def Rook.get_movement (rowA colA rowB colB : Int) (board : Board) : Option Bool :=
  if rowA = rowB ∧ colA < colB then
    pathClear board ((intRange (colA + 1) colB).map (fun c => (rowA, c)))
  else if rowA = rowB ∧ colA > colB then
    pathClear board ((intRange (colB + 1) colA).map (fun c => (rowA, c)))
  else if colA = colB ∧ rowA < rowB then
    pathClear board ((intRange (rowA + 1) rowB).map (fun r => (r, colA)))
  else if colA = colB ∧ rowA > rowB then
    pathClear board ((intRange (rowB + 1) rowA).map (fun r => (r, colA)))
  else some false

/-- `Bishop.get_movement` (after the shared point-parsing prelude).  In the
diagonal walks the file starts one step from the lower endpoint and moves one
step per visited rank, so the visited file is an affine function of the rank. -/
def Bishop.get_movement (rowA colA rowB colB : Int) (board : Board) : Option Bool :=
  if rowA = rowB ∨ colA = colB then some false
  else if iabs (rowA - rowB) ≠ iabs (colA - colB) then some false
  else if rowA < rowB ∧ colA < colB then
    pathClear board ((intRange (rowA + 1) rowB).map (fun r => (r, colA + (r - rowA))))
  else if rowA < rowB ∧ colA > colB then
    pathClear board ((intRange (rowA + 1) rowB).map (fun r => (r, colA - (r - rowA))))
  else if rowA > rowB ∧ colA < colB then
    pathClear board ((intRange (rowB + 1) rowA).map (fun r => (r, colB - (r - rowB))))
  else if rowA > rowB ∧ colA > colB then
    pathClear board ((intRange (rowB + 1) rowA).map (fun r => (r, colB + (r - rowB))))
  else some false

/-- `Queen.get_movement` (after the shared point-parsing prelude): the four
straight branches of the Rook followed by the four diagonal branches of the
Bishop — but, as in the source, without the Bishop's
`abs(row_A - row_B) != abs(column_A - column_B)` guard in front of the
diagonal section. -/
def Queen.get_movement (rowA colA rowB colB : Int) (board : Board) : Option Bool :=
  if rowA = rowB ∧ colA < colB then
    pathClear board ((intRange (colA + 1) colB).map (fun c => (rowA, c)))
  else if rowA = rowB ∧ colA > colB then
    pathClear board ((intRange (colB + 1) colA).map (fun c => (rowA, c)))
  else if colA = colB ∧ rowA < rowB then
    pathClear board ((intRange (rowA + 1) rowB).map (fun r => (r, colA)))
  else if colA = colB ∧ rowA > rowB then
    pathClear board ((intRange (rowB + 1) rowA).map (fun r => (r, colA)))
  else if rowA < rowB ∧ colA < colB then
    pathClear board ((intRange (rowA + 1) rowB).map (fun r => (r, colA + (r - rowA))))
  else if rowA < rowB ∧ colA > colB then
    pathClear board ((intRange (rowA + 1) rowB).map (fun r => (r, colA - (r - rowA))))
  else if rowA > rowB ∧ colA < colB then
    pathClear board ((intRange (rowB + 1) rowA).map (fun r => (r, colB - (r - rowB))))
  else if rowA > rowB ∧ colA > colB then
    pathClear board ((intRange (rowB + 1) rowA).map (fun r => (r, colB + (r - rowB))))
  else some false

/-- `space_A.get_movement(point_A, point_B, color, board)`: the polymorphic
dispatch on the piece class. -/
def pieceMovement (p : ChessPiece) (rowA colA rowB colB : Int) (color : Color)
    (board : Board) : Option Bool :=
  match p.letter with
  | PType.P => Pawn.get_movement rowA colA rowB colB color board
  | PType.K => King.get_movement rowA colA rowB colB board
  | PType.N => Knight.get_movement rowA colA rowB colB board
  | PType.R => Rook.get_movement rowA colA rowB colB board
  | PType.B => Bishop.get_movement rowA colA rowB colB board
  | PType.Q => Queen.get_movement rowA colA rowB colB board

/-- The squares visited by the two nested loops
`for row in range(row_B-1, row_B+2): for column in range(column_B-1, column_B+2)`
used both by the dead-kings scan of `check_move` and by the explosion of
`move_piece`. -/
def blastSquares (rowB colB : Int) : List (Int × Int) :=
  [(rowB - 1, colB - 1), (rowB - 1, colB), (rowB - 1, colB + 1),
   (rowB, colB - 1), (rowB, colB), (rowB, colB + 1),
   (rowB + 1, colB - 1), (rowB + 1, colB), (rowB + 1, colB + 1)]

/-- One square of the dead-kings scan in `check_move`.  Faithful to the source
defect: the `"wK"` branch and the `"bK"` branch BOTH assign `dead_white`, so the
second flag (`dead_black`) is never set. -/
def kingsStep (board : Board) (acc : Bool × Bool) (rc : Int × Int) : Bool × Bool :=
  if rc.1 < 1 ∨ rc.1 > 8 ∨ rc.2 < 0 ∨ rc.2 > 7 then acc
  else
    match board rc.1 rc.2 with
    | none => acc
    | some q =>
      let dw := if q = ⟨Color.w, PType.K⟩ then true else acc.1
      let dw2 := if q = ⟨Color.b, PType.K⟩ then true else dw
      (dw2, acc.2)

/-- The body of `ChessBoard.check_move` after the point-parsing prelude. -/
def check_move_at (board : Board) (rowA colA rowB colB : Int) (color : Color) :
    Option Bool :=
  match board.read rowA colA, board.read rowB colB with
  | some spaceA, some spaceB =>
    match spaceA with
    | none => some false
    | some pc =>
      if pc.color ≠ color then some false
      else if (match spaceB with
               | some q => decide (q.color = color)
               | none => false) then some false
      else if colB > 7 ∨ colB < 0 ∨ rowB > 8 ∨ rowB < 0 then some false
      else
        match pieceMovement pc rowA colA rowB colB color board with
        | none => none
        | some result =>
          if result = false then some false
          else
            let flags := (blastSquares rowB colB).foldl (kingsStep board) (false, false)
            if flags.1 && flags.2 then some false
            else some true
  | _, _ => none

/-- `ChessBoard.check_move`; `none` models an uncaught exception. -/
def check_move (board : Board) (pA pB : Point) (color : Color) : Option Bool :=
  match rowIndex pA.2, rowIndex pB.2, colIndex pA.1, colIndex pB.1 with
  | some rowA, some rowB, some colA, some colB =>
    check_move_at board rowA colA rowB colB color
  | _, _, _, _ => none

/-- One square of the explosion loop of `move_piece`: skip out-of-bounds
squares, empty squares and pawns; clear any other piece. -/
def blastStep (b : Board) (rc : Int × Int) : Board :=
  if rc.1 < 1 ∨ rc.1 > 8 ∨ rc.2 < 0 ∨ rc.2 > 7 then b
  else
    match b rc.1 rc.2 with
    | none => b
    | some q => if q.letter = PType.P then b else b.write rc.1 rc.2 none

/-- The explosion loop of `move_piece`. -/
def explode (b : Board) (rowB colB : Int) : Board :=
  (blastSquares rowB colB).foldl blastStep b

/-- `ChessBoard.move_piece`; `none` models an uncaught exception. -/
def move_piece (board : Board) (pA pB : Point) : Option Board :=
  match rowIndex pA.2, rowIndex pB.2, colIndex pA.1, colIndex pB.1 with
  | some rowA, some rowB, some colA, some colB =>
    match board.read rowB colB with
    | none => none
    | some spaceB =>
      match spaceB with
      | none =>
        match board.read rowA colA with
        | none => none
        | some spaceA => some ((board.write rowB colB spaceA).write rowA colA none)
      | some _ =>
        match board.writeF rowA colA none with
        | none => none
        | some b1 => some (explode (b1.write rowB colB none) rowB colB)
  | _, _, _, _ => none

/-- Game status strings of the source. -/
inductive GameState where
  | UNFINISHED
  | WHITE_WON
  | BLACK_WON
deriving DecidableEq

/-- The 64 squares in the scan order of `check_king` (rank 8 down to rank 1,
file 0 to file 7). -/
def allSquares : List (Int × Int) :=
  ((([8, 7, 6, 5, 4, 3, 2, 1] : List Int)).map (fun r =>
    (([0, 1, 2, 3, 4, 5, 6, 7] : List Int)).map (fun c => (r, c)))).flatten

/-- One square of the king scan of `check_king`. -/
def kingStep (b : Board) (acc : Bool × Bool) (rc : Int × Int) : Bool × Bool :=
  match b rc.1 rc.2 with
  | none => acc
  | some q =>
    (if q = ⟨Color.w, PType.K⟩ then true else acc.1,
     if q = ⟨Color.b, PType.K⟩ then true else acc.2)

/-- The `(white_king, black_king)` flags computed by `check_king`'s scan. -/
def kingScan (b : Board) : Bool × Bool :=
  allSquares.foldl (kingStep b) (false, false)

/-- Whether some square of the 64-square scan holds the given piece value. -/
def hasPiece (b : Board) (p : ChessPiece) : Bool :=
  allSquares.any (fun rc => decide (b rc.1 rc.2 = some p))

/-- `ChessBoard.check_king` composed with `ChessVar.set_game_state`: the game
state after the check, given the state before it. -/
def check_king (b : Board) (st : GameState) : GameState :=
  let wk := (kingScan b).1
  let bk := (kingScan b).2
  let st1 := if bk && !wk then GameState.BLACK_WON else st
  let st2 := if wk && !bk then GameState.WHITE_WON else st1
  st2

/-- The `ChessVar` game object: board, game state and turn. -/
structure ChessVar where
  board : Board
  game_state : GameState
  turn : Color

/-- The body of `ChessVar.make_move` (without the decorator): the returned
flag plus the updated game object. -/
def ChessVar.make_move_inner (g : ChessVar) (pA pB : Point) :
    Option (Bool × ChessVar) :=
  if g.game_state ≠ GameState.UNFINISHED then some (false, g)
  else
    match check_move g.board pA pB g.turn with
    | none => none
    | some result =>
      if result = false then some (false, g)
      else
        match move_piece g.board pA pB with
        | none => none
        | some b2 => some (true, ⟨b2, check_king b2 g.game_state, g.turn⟩)

/-- `ChessVar.make_move` wrapped in `move_decorator`: the turn is flipped
exactly when the returned result is `True`. -/
def ChessVar.make_move (g : ChessVar) (pA pB : Point) : Option (Bool × ChessVar) :=
  match g.make_move_inner pA pB with
  | none => none
  | some (result, g2) =>
    if result then some (result, { g2 with turn := g2.turn.flip })
    else some (result, g2)

/-- The back rank of `ChessBoard.__init__`: R N B Q K B N R. -/
def backRank (col : Color) (c : Int) : Square :=
  if c = 0 then some ⟨col, PType.R⟩
  else if c = 1 then some ⟨col, PType.N⟩
  else if c = 2 then some ⟨col, PType.B⟩
  else if c = 3 then some ⟨col, PType.Q⟩
  else if c = 4 then some ⟨col, PType.K⟩
  else if c = 5 then some ⟨col, PType.B⟩
  else if c = 6 then some ⟨col, PType.N⟩
  else if c = 7 then some ⟨col, PType.R⟩
  else none

/-- The starting board of `ChessBoard.__init__`. -/
def initBoard : Board := fun r c =>
  if 0 ≤ c ∧ c ≤ 7 then
    (if r = 8 then backRank Color.b c
     else if r = 7 then some ⟨Color.b, PType.P⟩
     else if r = 2 then some ⟨Color.w, PType.P⟩
     else if r = 1 then backRank Color.w c
     else none)
  else none

/-- `ChessVar.__init__`: starting board, unfinished, White to move. -/
def initGame : ChessVar := ⟨initBoard, GameState.UNFINISHED, Color.w⟩

/-- A board with no pieces at all. -/
def emptyBoard : Board := fun _ _ => none

/-
  Concrete boards used as inputs of counterexamples and witnesses.
-/

/-- White rook a3, black knight a5, white king b4, black king b5: a legal rook
capture a3xa5 whose blast square neighborhood contains both kings. -/
def doubleKillBoard : Board := fun r c =>
  if r = 3 ∧ c = 0 then some ⟨Color.w, PType.R⟩
  else if r = 5 ∧ c = 0 then some ⟨Color.b, PType.N⟩
  else if r = 4 ∧ c = 1 then some ⟨Color.w, PType.K⟩
  else if r = 5 ∧ c = 1 then some ⟨Color.b, PType.K⟩
  else none

/-- The game holding `doubleKillBoard`, unfinished, White to move. -/
def doubleKillGame : ChessVar := ⟨doubleKillBoard, GameState.UNFINISHED, Color.w⟩

/-- White pawn on its home square a2 with a black pawn directly in front of it
on a3. -/
def blockedPawnBoard : Board := fun r c =>
  if r = 2 ∧ c = 0 then some ⟨Color.w, PType.P⟩
  else if r = 3 ∧ c = 0 then some ⟨Color.b, PType.P⟩
  else none

/-- A finished game (White already won). -/
def finishedGame : ChessVar := ⟨initBoard, GameState.WHITE_WON, Color.w⟩

/-
  General-purpose lemmas about the board embedding.
-/

theorem read_some_bounds {b : Board} {row col : Int} {s : Square}
    (h : b.read row col = some s) : 1 ≤ row ∧ row ≤ 8 ∧ 0 ≤ col ∧ col ≤ 7 := by
  by_cases hc : 1 ≤ row ∧ row ≤ 8 ∧ 0 ≤ col ∧ col ≤ 7
  · exact hc
  · unfold Board.read at h
    rw [if_neg hc] at h
    cases h

theorem read_some_val {b : Board} {row col : Int} {s : Square}
    (h : b.read row col = some s) : b row col = s := by
  have hb := read_some_bounds h
  unfold Board.read at h
  rw [if_pos hb] at h
  exact Option.some.inj h

theorem read_of_bounds (b : Board) {row col : Int}
    (h : 1 ≤ row ∧ row ≤ 8 ∧ 0 ≤ col ∧ col ≤ 7) : b.read row col = some (b row col) := by
  unfold Board.read
  rw [if_pos h]

theorem write_read (b : Board) (row col : Int) (s : Square) (r c : Int) :
    (b.write row col s) r c = if r = row ∧ c = col then s else b r c := rfl

/-- Membership in the 3x3 scan list, as interval bounds. -/
theorem mem_blastSquares {rowB colB r c : Int} :
    (r, c) ∈ blastSquares rowB colB ↔
      (rowB - 1 ≤ r ∧ r ≤ rowB + 1 ∧ colB - 1 ≤ c ∧ c ≤ colB + 1) := by
  simp only [blastSquares, List.mem_cons, List.mem_singleton, List.not_mem_nil,
    or_false, Prod.mk.injEq]
  omega

/-- The nine squares of the 3x3 scan list are pairwise distinct. -/
theorem nodup_blastSquares (rowB colB : Int) : (blastSquares rowB colB).Nodup := by
  simp [blastSquares, Prod.ext_iff]
  omega

/-
  C1.  The Queen rule is claimed to be exactly the union of the Rook and
  Bishop rules.  The source's Queen omits the Bishop's
  `abs(row_A - row_B) != abs(column_A - column_B)` guard, so a queen move from
  a1 to b3 — neither straight nor diagonal — is accepted on an otherwise empty
  board, while both the Rook rule and the Bishop rule reject it.
-/

/-- C1: on the empty board, a queen move from a1 (row 1, file 0) to b3 (row 3,
file 1) — neither a straight line nor an exact diagonal — is accepted by
`Queen.get_movement`, although both `Rook.get_movement` and
`Bishop.get_movement` reject it.  This refutes the claim that the Queen's rule
answers true exactly when the Rook's rule or the Bishop's rule does. -/
theorem C1_queen_accepts_non_line_move :
    Queen.get_movement 1 0 3 1 emptyBoard = some true ∧
    Rook.get_movement 1 0 3 1 emptyBoard = some false ∧
    Bishop.get_movement 1 0 3 1 emptyBoard = some false := by
  refine ⟨?_, ?_, ?_⟩ <;> decide

/-
  C2.  The dead-kings veto of `check_move` is claimed to reject a move whose
  3x3 destination neighborhood contains both kings.  In the source both the
  `"wK"` branch and the `"bK"` branch of the scan set `dead_white`, so
  `dead_black` is never set and the veto `if dead_white and dead_black` can
  never fire.  On `doubleKillBoard` the rook capture a3xa5 passes the rook
  rule, both kings sit in the 3x3 neighborhood of a5, and `check_move`
  nevertheless answers `True`.
-/

/-- C2: on `doubleKillBoard`, both kings stand in the 3x3 neighborhood of the
destination a5 (row 5, file 0) of the legal rook capture a3xa5, yet
`check_move` accepts the move, refuting the claim that such a move is judged
illegal. -/
theorem C2_double_king_veto_never_fires :
    doubleKillBoard 4 1 = some ⟨Color.w, PType.K⟩ ∧
    doubleKillBoard 5 1 = some ⟨Color.b, PType.K⟩ ∧
    doubleKillBoard 5 0 = some ⟨Color.b, PType.N⟩ ∧
    ((4, 1) : Int × Int) ∈ blastSquares 5 0 ∧
    ((5, 1) : Int × Int) ∈ blastSquares 5 0 ∧
    check_move doubleKillBoard ('a', '3') ('a', '5') Color.w = some true := by
  refine ⟨rfl, rfl, rfl, ?_, ?_, ?_⟩
  · decide
  · decide
  · decide

/-
  C3.  The pawn's home-rank branch of the source
  (`if row_A == 2 and column_A == column_B: if row_B - row_A in {1, 2}: return
  True`) fires before any board access, so the advance is accepted no matter
  what occupies the destination; the claim that the destination must be empty
  is refuted by a black pawn standing on a3.
-/

/-- C3 counterexample: a white pawn on its home rank a2 with the destination a3
occupied by a black pawn; `Pawn.get_movement` nevertheless accepts the straight
advance, and the full `check_move` validation accepts it as well, refuting the
claim that an occupied destination straight ahead is illegal. -/
theorem C3_counterexample_occupied_advance :
    blockedPawnBoard 3 0 = some ⟨Color.b, PType.P⟩ ∧
    Pawn.get_movement 2 0 3 0 Color.w blockedPawnBoard = some true ∧
    check_move blockedPawnBoard ('a', '2') ('a', '3') Color.w = some true := by
  refine ⟨rfl, ?_, ?_⟩ <;> decide

/-- C3 (amended): for every pawn on its color's home rank (rank 2 for White,
rank 7 for Black), the pawn movement rule accepts a straight advance of 1 or 2
squares regardless of the contents of the destination square, and performs no
check of the intermediate square for the 2-square advance (the statement is
quantified over every board, so no square's contents are consulted at all). -/
theorem C3_home_rank_advance_unchecked (b : Board) (colA rowB colB : Int)
    (hc : colA = colB) :
    (rowB - 2 = 1 ∨ rowB - 2 = 2 →
      Pawn.get_movement 2 colA rowB colB Color.w b = some true) ∧
    (7 - rowB = 1 ∨ 7 - rowB = 2 →
      Pawn.get_movement 7 colA rowB colB Color.b b = some true) := by
  constructor
  · intro hr
    show (if (2 : Int) = 2 ∧ colA = colB then
            (if rowB - 2 = 1 ∨ rowB - 2 = 2 then some true else some false)
          else _) = some true
    rw [if_pos ⟨rfl, hc⟩, if_pos hr]
  · intro hr
    show (if (7 : Int) = 7 ∧ colA = colB then
            (if 7 - rowB = 1 ∨ 7 - rowB = 2 then some true else some false)
          else _) = some true
    rw [if_pos ⟨rfl, hc⟩, if_pos hr]

/-- C3 witness: the amended statement evaluated on concrete inputs — the
blocked 1-square white advance a2–a3 on `blockedPawnBoard` and a black
2-square advance e7–e5. -/
theorem C3_home_rank_witness :
    Pawn.get_movement 2 0 3 0 Color.w blockedPawnBoard = some true ∧
    Pawn.get_movement 7 4 5 4 Color.b blockedPawnBoard = some true :=
  ⟨(C3_home_rank_advance_unchecked blockedPawnBoard 0 3 0 rfl).1 (by decide),
   (C3_home_rank_advance_unchecked blockedPawnBoard 4 5 4 rfl).2 (by decide)⟩

/-
  C4.  The King rule: one square in any of the 8 directions, onto an empty
  destination only.
-/

theorem iabs_eq_one_iff (x : Int) : iabs x = 1 ↔ x = 1 ∨ x = -1 := by
  unfold iabs
  split_ifs <;> omega

/-- C4: for every board, source and (in-bounds) destination, the King's rule
answers true exactly when the destination square is empty and lies exactly one
square from the source in one of the 8 directions; in particular any move onto
an occupied square is rejected. -/
theorem C4_king_one_step_empty_only (b : Board) (rowA colA rowB colB : Int)
    (hB : 1 ≤ rowB ∧ rowB ≤ 8 ∧ 0 ≤ colB ∧ colB ≤ 7) :
    King.get_movement rowA colA rowB colB b = some true ↔
      (b rowB colB = none ∧
       (rowB - rowA = -1 ∨ rowB - rowA = 0 ∨ rowB - rowA = 1) ∧
       (colB - colA = -1 ∨ colB - colA = 0 ∨ colB - colA = 1) ∧
       ¬(rowB = rowA ∧ colB = colA)) := by
  unfold King.get_movement
  rw [read_of_bounds b hB]
  rcases hd : b rowB colB with _ | q
  · simp only [iabs_eq_one_iff]
    split_ifs with h1 h2 h3 <;> simp <;> omega
  · simp

/-- C4 witness: the king rule at the concrete move e4–e5 on the empty board. -/
theorem C4_king_witness :
    King.get_movement 4 4 5 4 emptyBoard = some true ↔
      (emptyBoard 5 4 = none ∧
       ((5 : Int) - 4 = -1 ∨ (5 : Int) - 4 = 0 ∨ (5 : Int) - 4 = 1) ∧
       ((4 : Int) - 4 = -1 ∨ (4 : Int) - 4 = 0 ∨ (4 : Int) - 4 = 1) ∧
       ¬((5 : Int) = 4 ∧ (4 : Int) = 4)) :=
  C4_king_one_step_empty_only emptyBoard 4 4 5 4 (by decide)

/-
  C5.  Pointwise characterization of the explosion loop, then the post-state
  of `move_piece` on a capture.
-/

/-- The value a square takes when the explosion loop visits it: out-of-bounds
squares, empty squares and pawns are left alone, any other piece is cleared. -/
def blastVal (r c : Int) (s : Square) : Square :=
  if r < 1 ∨ r > 8 ∨ c < 0 ∨ c > 7 then s
  else
    match s with
    | none => none
    | some q => if q.letter = PType.P then some q else none

theorem blastVal_none (r c : Int) : blastVal r c none = none := by
  unfold blastVal
  split_ifs <;> rfl

theorem blastVal_some_val (r c : Int) (q : ChessPiece) :
    blastVal r c (some q) =
      if r < 1 ∨ r > 8 ∨ c < 0 ∨ c > 7 then some q
      else if q.letter = PType.P then some q else none := by
  unfold blastVal
  by_cases hg : r < 1 ∨ r > 8 ∨ c < 0 ∨ c > 7
  · rw [if_pos hg]
  · rw [if_neg hg]

theorem blastStep_read (b : Board) (x y r c : Int) :
    blastStep b (x, y) r c =
      if x = r ∧ y = c then blastVal r c (b r c) else b r c := by
  by_cases hxy : x = r ∧ y = c
  · obtain ⟨hx, hy⟩ := hxy
    subst hx
    subst hy
    rw [if_pos ⟨rfl, rfl⟩]
    unfold blastStep blastVal
    rcases hs : b x y with _ | q
    · simp [hs]
    · by_cases hg : x < 1 ∨ x > 8 ∨ y < 0 ∨ y > 7
      · simp [hg, hs]
      · by_cases hp : q.letter = PType.P
        · simp [hg, hs, hp]
        · simp [hg, hs, hp, Board.write]
  · rw [if_neg hxy]
    unfold blastStep
    have hne : ¬(r = x ∧ c = y) := fun h => hxy ⟨h.1.symm, h.2.symm⟩
    rcases hs : b x y with _ | q
    · simp [hs]
    · by_cases hg : x < 1 ∨ x > 8 ∨ y < 0 ∨ y > 7
      · simp [hg]
      · by_cases hp : q.letter = PType.P
        · simp [hg, hs, hp]
        · simp [hg, hs, hp, Board.write, hne]

/-- Effect of folding the explosion step over a duplicate-free square list:
each listed square takes its blast value, every other square is untouched. -/
theorem foldl_blastStep_read (l : List (Int × Int)) (b : Board) (r c : Int)
    (hnd : l.Nodup) :
    (l.foldl blastStep b) r c =
      if (r, c) ∈ l then blastVal r c (b r c) else b r c := by
  induction l generalizing b with
  | nil => simp
  | cons hd tl ih =>
    rcases hd with ⟨x, y⟩
    rw [List.foldl_cons, ih _ (List.Nodup.of_cons hnd)]
    have hstep := blastStep_read b x y r c
    by_cases hmem : (r, c) ∈ tl
    · have hne : ¬(x = r ∧ y = c) := by
        intro h
        obtain ⟨hx, hy⟩ := h
        subst hx
        subst hy
        exact (List.nodup_cons.mp hnd).1 hmem
      rw [if_pos hmem, if_pos (List.mem_cons_of_mem _ hmem), hstep, if_neg hne]
    · rw [if_neg hmem]
      by_cases hxy : x = r ∧ y = c
      · obtain ⟨hx, hy⟩ := hxy
        subst hx
        subst hy
        rw [hstep, if_pos ⟨rfl, rfl⟩, if_pos (List.mem_cons_self _ _)]
      · rw [hstep, if_neg hxy, if_neg ?_]
        intro hin
        rcases List.mem_cons.mp hin with h | h
        · exact hxy ⟨congrArg Prod.fst h.symm, congrArg Prod.snd h.symm⟩
        · exact hmem h

/-- Reading any square of `explode b rowB colB`. -/
theorem explode_read (b : Board) (rowB colB r c : Int) :
    explode b rowB colB r c =
      if rowB - 1 ≤ r ∧ r ≤ rowB + 1 ∧ colB - 1 ≤ c ∧ c ≤ colB + 1 then
        blastVal r c (b r c)
      else b r c := by
  unfold explode
  rw [foldl_blastStep_read _ _ _ _ (nodup_blastSquares rowB colB)]
  by_cases hmem : (r, c) ∈ blastSquares rowB colB
  · rw [if_pos hmem, if_pos (mem_blastSquares.mp hmem)]
  · rw [if_neg hmem, if_neg (fun h => hmem (mem_blastSquares.mpr h))]

/-- C5: applying `move_piece` to a capture (destination occupied).  Afterwards
the source square is empty; every in-bounds square of the 3x3 neighborhood of
the destination holds no non-pawn piece; every pawn in that neighborhood other
than one at the source or destination is unchanged; and every square outside
the source and that neighborhood is unchanged. -/
theorem C5_capture_post_state
    (b : Board) (pA pB : Point) (rowA colA rowB colB : Int)
    (hrA : rowIndex pA.2 = some rowA) (hcA : colIndex pA.1 = some colA)
    (hrB : rowIndex pB.2 = some rowB) (hcB : colIndex pB.1 = some colB)
    (hAin : 1 ≤ rowA ∧ rowA ≤ 8 ∧ 0 ≤ colA ∧ colA ≤ 7)
    (q : ChessPiece) (hocc : b.read rowB colB = some (some q)) :
    ∃ b' : Board, move_piece b pA pB = some b' ∧
      b' rowA colA = none ∧
      (∀ r c : Int, 1 ≤ r → r ≤ 8 → 0 ≤ c → c ≤ 7 →
        rowB - 1 ≤ r → r ≤ rowB + 1 → colB - 1 ≤ c → c ≤ colB + 1 →
        ∀ p : ChessPiece, b' r c = some p → p.letter = PType.P) ∧
      (∀ r c : Int,
        rowB - 1 ≤ r → r ≤ rowB + 1 → colB - 1 ≤ c → c ≤ colB + 1 →
        ¬(r = rowA ∧ c = colA) → ¬(r = rowB ∧ c = colB) →
        (∀ p : ChessPiece, b r c = some p → p.letter = PType.P) →
        b' r c = b r c) ∧
      (∀ r c : Int, ¬(r = rowA ∧ c = colA) →
        ¬(rowB - 1 ≤ r ∧ r ≤ rowB + 1 ∧ colB - 1 ≤ c ∧ c ≤ colB + 1) →
        b' r c = b r c) := by
  have hb2 : ∀ r c : Int, ((b.write rowA colA none).write rowB colB none) r c =
      if r = rowB ∧ c = colB then none
      else if r = rowA ∧ c = colA then none
      else b r c := by
    intro r c
    rw [write_read]
    by_cases h : r = rowB ∧ c = colB
    · rw [if_pos h, if_pos h]
    · rw [if_neg h, if_neg h, write_read]
  refine ⟨explode ((b.write rowA colA none).write rowB colB none) rowB colB,
    ?_, ?_, ?_, ?_, ?_⟩
  · simp only [move_piece, hrA, hrB, hcA, hcB, hocc, Board.writeF]
    rw [if_pos hAin]
  · rw [explode_read]
    have h2 : ((b.write rowA colA none).write rowB colB none) rowA colA = none := by
      rw [hb2]
      by_cases h : rowA = rowB ∧ colA = colB
      · rw [if_pos h]
      · rw [if_neg h, if_pos ⟨rfl, rfl⟩]
    rw [h2]
    split_ifs with hm
    · exact blastVal_none rowA colA
    · rfl
  · intro r c h1 h2 h3 h4 h5 h6 h7 h8 p hp
    rw [explode_read, if_pos ⟨h5, h6, h7, h8⟩] at hp
    rcases hbv : ((b.write rowA colA none).write rowB colB none) r c with _ | q2
    · rw [hbv, blastVal_none] at hp
      cases hp
    · rw [hbv, blastVal_some_val, if_neg (by omega)] at hp
      by_cases hq : q2.letter = PType.P
      · rw [if_pos hq] at hp
        exact (Option.some.inj hp) ▸ hq
      · rw [if_neg hq] at hp
        cases hp
  · intro r c h5 h6 h7 h8 hA hB hpawn
    rw [explode_read, if_pos ⟨h5, h6, h7, h8⟩]
    have hb2v : ((b.write rowA colA none).write rowB colB none) r c = b r c := by
      rw [hb2, if_neg hB, if_neg hA]
    rw [hb2v]
    rcases hb : b r c with _ | p
    · exact blastVal_none r c
    · rw [blastVal_some_val]
      by_cases hg : r < 1 ∨ r > 8 ∨ c < 0 ∨ c > 7
      · rw [if_pos hg]
      · rw [if_neg hg, if_pos (hpawn p hb)]
  · intro r c hA hnb
    rw [explode_read, if_neg hnb]
    have hBne : ¬(r = rowB ∧ c = colB) := by
      intro h
      obtain ⟨h1, h2⟩ := h
      exact hnb ⟨by omega, by omega, by omega, by omega⟩
    rw [hb2, if_neg hBne, if_neg hA]

/-- C5 witness: the rook capture a3xa5 on `doubleKillBoard`, with all
hypotheses discharged on the concrete input. -/
theorem C5_capture_witness :
    ∃ b' : Board, move_piece doubleKillBoard ('a', '3') ('a', '5') = some b' ∧
      b' 3 0 = none ∧
      (∀ r c : Int, 1 ≤ r → r ≤ 8 → 0 ≤ c → c ≤ 7 →
        (5 : Int) - 1 ≤ r → r ≤ (5 : Int) + 1 → (0 : Int) - 1 ≤ c → c ≤ (0 : Int) + 1 →
        ∀ p : ChessPiece, b' r c = some p → p.letter = PType.P) ∧
      (∀ r c : Int,
        (5 : Int) - 1 ≤ r → r ≤ (5 : Int) + 1 → (0 : Int) - 1 ≤ c → c ≤ (0 : Int) + 1 →
        ¬(r = 3 ∧ c = 0) → ¬(r = 5 ∧ c = 0) →
        (∀ p : ChessPiece, doubleKillBoard r c = some p → p.letter = PType.P) →
        b' r c = doubleKillBoard r c) ∧
      (∀ r c : Int, ¬(r = 3 ∧ c = 0) →
        ¬((5 : Int) - 1 ≤ r ∧ r ≤ (5 : Int) + 1 ∧ (0 : Int) - 1 ≤ c ∧ c ≤ (0 : Int) + 1) →
        b' r c = doubleKillBoard r c) :=
  C5_capture_post_state doubleKillBoard ('a', '3') ('a', '5') 3 0 5 0
    (by decide) (by decide) (by decide) (by decide) (by decide)
    ⟨Color.b, PType.N⟩ (by decide)

/-
  C8 / C10.  Characterization of the `check_king` scan.
-/

theorem foldl_kingStep (b : Board) (l : List (Int × Int)) (dw db : Bool) :
    l.foldl (kingStep b) (dw, db) =
      (dw || l.any (fun rc => decide (b rc.1 rc.2 = some ⟨Color.w, PType.K⟩)),
       db || l.any (fun rc => decide (b rc.1 rc.2 = some ⟨Color.b, PType.K⟩))) := by
  induction l generalizing dw db with
  | nil => simp
  | cons hd tl ih =>
    rw [List.foldl_cons, List.any_cons, List.any_cons]
    have hstep : kingStep b (dw, db) hd =
        (dw || decide (b hd.1 hd.2 = some ⟨Color.w, PType.K⟩),
         db || decide (b hd.1 hd.2 = some ⟨Color.b, PType.K⟩)) := by
      unfold kingStep
      rcases hbd : b hd.1 hd.2 with _ | q
      · simp
      · by_cases hw : q = ⟨Color.w, PType.K⟩
        · subst hw
          simp
        · by_cases hb2 : q = ⟨Color.b, PType.K⟩
          · subst hb2
            simp
          · simp [hw, hb2]
    rw [hstep, ih]
    simp [Bool.or_assoc]

theorem kingScan_eq (b : Board) :
    kingScan b = (hasPiece b ⟨Color.w, PType.K⟩, hasPiece b ⟨Color.b, PType.K⟩) := by
  unfold kingScan hasPiece
  rw [foldl_kingStep]
  simp

/-- C8: the terminal-state check scans the 64 squares and, given an unfinished
incoming status, ends with BLACK_WON exactly when no White king remains and a
Black king remains, with WHITE_WON exactly when no Black king remains and a
White king remains, and leaves the status unchanged (Unfinished) when both
kings remain. -/
theorem C8_check_king_win_detection (b : Board) (st : GameState)
    (hst : st = GameState.UNFINISHED) :
    (check_king b st = GameState.BLACK_WON ↔
      (hasPiece b ⟨Color.w, PType.K⟩ = false ∧ hasPiece b ⟨Color.b, PType.K⟩ = true)) ∧
    (check_king b st = GameState.WHITE_WON ↔
      (hasPiece b ⟨Color.b, PType.K⟩ = false ∧ hasPiece b ⟨Color.w, PType.K⟩ = true)) ∧
    (hasPiece b ⟨Color.w, PType.K⟩ = true → hasPiece b ⟨Color.b, PType.K⟩ = true →
      check_king b st = st) := by
  subst hst
  unfold check_king
  rw [kingScan_eq]
  cases hw : hasPiece b ⟨Color.w, PType.K⟩ <;>
    cases hb : hasPiece b ⟨Color.b, PType.K⟩ <;> simp

/-- A board holding only the black king (on e8). -/
def lonelyBlackKingBoard : Board := fun r c =>
  if r = 8 ∧ c = 4 then some ⟨Color.b, PType.K⟩ else none

/-- C8 witness: on a board holding only the black king, the check declares
BLACK_WON. -/
theorem C8_win_witness :
    check_king lonelyBlackKingBoard GameState.UNFINISHED = GameState.BLACK_WON :=
  ((C8_check_king_win_detection lonelyBlackKingBoard GameState.UNFINISHED rfl).1).mpr
    ⟨by decide, by decide⟩

/-- C10: when neither king remains on the board, `check_king` leaves the game
status unchanged; and the double-king explosion is reachable — on
`doubleKillGame` the rook capture a3xa5 is accepted (the veto does not fire,
see C2), destroys both kings, and the game status stays UNFINISHED with no
winner declared. -/
theorem C10_both_kings_absent_no_winner :
    (∀ (b : Board) (st : GameState),
      hasPiece b ⟨Color.w, PType.K⟩ = false → hasPiece b ⟨Color.b, PType.K⟩ = false →
      check_king b st = st) ∧
    (doubleKillGame.make_move ('a', '3') ('a', '5')).map
        (fun p => (p.1, p.2.game_state)) = some (true, GameState.UNFINISHED) := by
  constructor
  · intro b st hw hb
    unfold check_king
    rw [kingScan_eq, hw, hb]
    rfl
  · decide

/-- C10 witness: the status-preservation part applied to the empty board. -/
theorem C10_kingless_witness :
    check_king emptyBoard GameState.UNFINISHED = GameState.UNFINISHED :=
  C10_both_kings_absent_no_winner.1 emptyBoard GameState.UNFINISHED
    (by decide) (by decide)

/-
  C6 / C7.  The move-submission wrapper.
-/

theorem Color.flip_ne (c : Color) : c.flip ≠ c := by
  cases c <;> decide

/-- The three possible shapes of `make_move`'s inner body: exception, rejection
(game object untouched), or success with the turn still unflipped. -/
theorem make_move_inner_cases (g : ChessVar) (pA pB : Point) :
    g.make_move_inner pA pB = none ∨
    g.make_move_inner pA pB = some (false, g) ∨
    ∃ b2 : Board, g.make_move_inner pA pB =
      some (true, ⟨b2, check_king b2 g.game_state, g.turn⟩) := by
  unfold ChessVar.make_move_inner
  by_cases hst : g.game_state ≠ GameState.UNFINISHED
  · rw [if_pos hst]
    right
    left
    rfl
  · rw [if_neg hst]
    rcases hcm : check_move g.board pA pB g.turn with _ | result
    · left
      rfl
    · rcases result with _ | _
      · right
        left
        rfl
      · rcases hmp : move_piece g.board pA pB with _ | b2
        · left
          rfl
        · right
          right
          exact ⟨b2, rfl⟩

/-- C6: whenever `make_move` returns a result, the turn has flipped exactly
when the result is `True`; a `False` result leaves the game object — board,
status and turn — exactly as it was. -/
theorem C6_turn_flips_iff_success (g : ChessVar) (pA pB : Point) (res : Bool)
    (g' : ChessVar) (h : g.make_move pA pB = some (res, g')) :
    (res = true ↔ g'.turn ≠ g.turn) ∧
    (res = true → g'.turn = g.turn.flip) ∧
    (res = false → g' = g) := by
  rcases make_move_inner_cases g pA pB with hc | hc | ⟨b2, hc⟩ <;>
    unfold ChessVar.make_move at h <;> rw [hc] at h
  · cases h
  · simp only [Bool.false_eq_true, if_false, Option.some.injEq, Prod.mk.injEq] at h
    obtain ⟨hres, hg⟩ := h
    subst hres
    subst hg
    simp
  · simp only [if_true, Option.some.injEq, Prod.mk.injEq] at h
    obtain ⟨hres, hg⟩ := h
    subst hres
    subst hg
    refine ⟨?_, ?_, ?_⟩
    · simp [Color.flip_ne]
    · intro _
      rfl
    · intro hfalse
      cases hfalse

/-- C6 witness: `make_move` on the initial game at the pawn advance a2–a3,
with the conclusion instantiated on the concrete returned pair. -/
theorem C6_turn_witness :
    ∃ res : Bool, ∃ g' : ChessVar,
      initGame.make_move ('a', '2') ('a', '3') = some (res, g') ∧
      ((res = true ↔ g'.turn ≠ initGame.turn) ∧
       (res = true → g'.turn = initGame.turn.flip) ∧
       (res = false → g' = initGame)) := by
  rcases hEq : initGame.make_move ('a', '2') ('a', '3') with _ | ⟨res, g2⟩
  · exact absurd (congrArg Option.isSome hEq) (by decide)
  · exact ⟨res, g2, rfl, C6_turn_flips_iff_success initGame _ _ res g2 hEq⟩

/-- C7: on a game whose status is not UNFINISHED, every `make_move` call
returns `False` and leaves the game object untouched. -/
theorem C7_finished_game_rejects (g : ChessVar) (pA pB : Point)
    (h : g.game_state ≠ GameState.UNFINISHED) :
    g.make_move pA pB = some (false, g) := by
  unfold ChessVar.make_move ChessVar.make_move_inner
  rw [if_pos h]
  rfl

/-- C7 witness: a finished game rejects the opening pawn move. -/
theorem C7_finished_witness :
    finishedGame.make_move ('a', '2') ('a', '3') = some (false, finishedGame) :=
  C7_finished_game_rejects finishedGame ('a', '2') ('a', '3') (by decide)

/-
  C9.  Malformed algebraic notation: a file letter outside a..h makes
  `columns.index` raise, and a rank digit outside 1..8 makes the board
  subscription raise; either way the move submission errors out instead of
  returning False.
-/

theorem check_move_malformed (b : Board) (pA pB : Point) (color : Color)
    (hbad : colIndex pA.1 = none ∨ colIndex pB.1 = none ∨
      (∃ v : Int, rowIndex pA.2 = some v ∧ (v < 1 ∨ 8 < v)) ∨
      (∃ v : Int, rowIndex pB.2 = some v ∧ (v < 1 ∨ 8 < v))) :
    check_move b pA pB color = none := by
  unfold check_move
  rcases h1 : rowIndex pA.2 with _ | rowA
  · rfl
  rcases h2 : rowIndex pB.2 with _ | rowB
  · rfl
  rcases h3 : colIndex pA.1 with _ | colA
  · rfl
  rcases h4 : colIndex pB.1 with _ | colB
  · rfl
  rcases hbad with hb | hb | ⟨v, hv, hrange⟩ | ⟨v, hv, hrange⟩
  · rw [h3] at hb
    cases hb
  · rw [h4] at hb
    cases hb
  · have hva := Option.some.inj (h1.symm.trans hv)
    subst hva
    show check_move_at b rowA colA rowB colB color = none
    have hre : b.read rowA colA = none := by
      unfold Board.read
      rw [if_neg (by omega)]
    unfold check_move_at
    rw [hre]
  · have hvb := Option.some.inj (h2.symm.trans hv)
    subst hvb
    show check_move_at b rowA colA rowB colB color = none
    have hre : b.read rowB colB = none := by
      unfold Board.read
      rw [if_neg (by omega)]
    unfold check_move_at
    rcases hra : b.read rowA colA with _ | sA
    · rfl
    · rw [hre]

/-- C9: submitting a move with malformed algebraic notation — a file letter
outside a..h (so `columns.index` has no match) or a rank digit outside 1..8 —
to a game in progress makes the move submission fail with an error (`none`,
the model of an uncaught exception) rather than return `False`. -/
theorem C9_malformed_notation_errors (g : ChessVar) (pA pB : Point)
    (hst : g.game_state = GameState.UNFINISHED)
    (hbad : colIndex pA.1 = none ∨ colIndex pB.1 = none ∨
      (∃ v : Int, rowIndex pA.2 = some v ∧ (v < 1 ∨ 8 < v)) ∨
      (∃ v : Int, rowIndex pB.2 = some v ∧ (v < 1 ∨ 8 < v))) :
    g.make_move pA pB = none := by
  unfold ChessVar.make_move ChessVar.make_move_inner
  rw [if_neg (fun hne => hne hst), check_move_malformed g.board pA pB g.turn hbad]

/-- C9 witness: the malformed submissions z2–a3 (bad file letter) and a2–a9
(rank digit out of range) both error out on the initial game. -/
theorem C9_malformed_witness :
    initGame.make_move ('z', '2') ('a', '3') = none ∧
    initGame.make_move ('a', '2') ('a', '9') = none :=
  ⟨C9_malformed_notation_errors initGame ('z', '2') ('a', '3') rfl (Or.inl (by decide)),
   C9_malformed_notation_errors initGame ('a', '2') ('a', '9') rfl
     (Or.inr (Or.inr (Or.inr ⟨9, by decide, by decide⟩)))⟩

end AtomicChess
